import Mathlib

/-!
Shallow embedding of the resumable acquisition engine of
`modpack-downloader.py`: the content validator (`validate_file`), the
transfer client (`download_file`), the progress ledger (`progress.json`
load/store), the per-entry planner (the body of the `for mod in
manifest["files"]` loop) and the driver (the `while retry` loop with its
`finally` block).

Conventions of the embedding:
* file contents are abstract strings; the MD5 function is a parameter
  (`Env.md5`), as the algorithm choice is behaviour-irrelevant;
* every network call returns `ok`, `fail` (an exception or a falsy
  response object) or `interrupt` (a `KeyboardInterrupt` raised during
  the blocking call);
* the staging directory `download/mods` is an association list from
  filename to content; the ledger is an association list from
  `(projectID, fileID)` (stringified, as in the script) to a record
  whose four fields may each be absent, mirroring missing JSON keys;
* console printing is not modelled; the operator prompt is modelled by
  a stream of already-valid yes/no answers (the script loops until the
  reply starts with y or n);
* `override_files`, the archive download and extraction, and the README
  generation are outside the engine and are not modelled.
-/

namespace ModpackDownloader

/-- Abstract file contents. -/
abbrev Bytes := String

/-- A filename inside the staging directory. -/
abbrev Filename := String

/-- The staging directory `download/mods`: filename to content. -/
abbrev FS := List (Filename × Bytes)

/-- Read a file (`Path.exists` / open-and-read). -/
def FS.read : FS → Filename → Option Bytes
  | [], _ => none
  | (m, c) :: rest, n => if m = n then some c else FS.read rest n

/-- Write a file, overwriting any existing one (`file_path.open('wb')`). -/
def FS.write : FS → Filename → Bytes → FS
  | [], n, b => [(n, b)]
  | (m, c) :: rest, n, b =>
    if m = n then (n, b) :: rest else (m, c) :: FS.write rest n b

/-- An HTTP response as the script consumes it: body bytes and the
`ETag` header already stripped of its surrounding quotes. -/
structure Response where
  content : Bytes
  etag : String
deriving DecidableEq

/-- Result of one blocking network call: a value, an ordinary failure
(a raised exception or a falsy `requests` response), or a
`KeyboardInterrupt` observed during the call. -/
inductive NetResult (α : Type) where
  | ok (val : α)
  | fail
  | interrupt
deriving DecidableEq

/-- The external world: URL resolution via the catalog API
(`GET {API_URL}/{pid}/file/{fid}/download-url`), file transfer
(`requests.get(url)`), and the digest algorithm (`hashlib.md5`). -/
structure Env where
  resolve : String → String → NetResult String
  fetch : String → NetResult Response
  md5 : Bytes → String

/-- Characters of the current segment (reversed) folded over the rest:
a `'/'` starts a new segment, the final segment is returned. -/
def lastSegAux : List Char → List Char → List Char
  | [], cur => cur.reverse
  | c :: rest, cur => if c = '/' then lastSegAux rest [] else lastSegAux rest (c :: cur)

/-- `url.split('/')[-1]`: the final path segment (empty for a trailing
slash or an empty string, the whole string when there is no slash). -/
def lastSeg (url : String) : String :=
  ⟨lastSegAux url.data []⟩

/-- `validate_file(checked_file_path, md5)`: false when the path does
not exist or `md5` is falsy, else compares the computed digest. -/
def validateFile (md5F : Bytes → String) (fs : FS) (path : Filename) (md5 : String) : Bool :=
  match FS.read fs path with
  | none => false
  | some data => if md5 == "" then false else md5F data == md5

/-- Python truthiness of an optional string (`None` and `""` are falsy). -/
def optTruthy : Option String → Bool
  | none => false
  | some s => s != ""

/-- One entry of `manifest["files"]`, with `projectID` and `fileID`
already stringified (`str(mod["projectID"])`, `str(mod["fileID"])`). -/
structure ModEntry where
  projectID : String
  fileID : String
deriving DecidableEq

/-- Ledger key. -/
abbrev Key := String × String

def ModEntry.key (m : ModEntry) : Key := (m.projectID, m.fileID)

/-- A ledger entry as stored in `progress.json`: each of the four keys
may be absent from the JSON object (outer `Option` = key presence;
for `name`/`url` the inner `Option` is the JSON `null`). -/
structure RawRecord where
  name? : Option (Option String)
  url? : Option (Option String)
  md5? : Option String
  downloaded? : Option Bool
deriving DecidableEq

/-- A ledger entry after the default-filling loop: all keys present. -/
structure Record where
  name : Option String
  url : Option String
  md5 : String
  downloaded : Bool
deriving DecidableEq

/-- The fresh `{}` inserted on first encounter of a key. -/
def emptyRaw : RawRecord := ⟨none, none, none, none⟩

/-- Lines 284-294: fill each missing key with its default from
`mod_info_defaults` (`name: None, url: None, md5: "", downloaded:
False`); the boolean reports whether any key was missing (each missing
key sets `force_download = progress_modified = True`). -/
def initRecord (raw : RawRecord) : Record × Bool :=
  (⟨raw.name?.getD none, raw.url?.getD none, raw.md5?.getD "", raw.downloaded?.getD false⟩,
   raw.name?.isNone || raw.url?.isNone || raw.md5?.isNone || raw.downloaded?.isNone)

/-- Store a fully-initialized record back as JSON fields. -/
def Record.toRaw (r : Record) : RawRecord :=
  ⟨some r.name, some r.url, some r.md5, some r.downloaded⟩

/-- The progress ledger: `(projectID, fileID)` to record.  The script's
two-level dict `progress[pid][fid]` is flattened to its single access
path. -/
abbrev Ledger := List (Key × RawRecord)

/-- Dict lookup `progress[pid][fid]`. -/
def Ledger.find : Ledger → Key → Option RawRecord
  | [], _ => none
  | (k', r) :: rest, k => if k' = k then some r else Ledger.find rest k

/-- Dict update in place (existing binding replaced, new one appended). -/
def Ledger.store : Ledger → Key → RawRecord → Ledger
  | [], k, r => [(k, r)]
  | (k', r') :: rest, k, r =>
    if k' = k then (k, r) :: rest else (k', r') :: Ledger.store rest k r

/-- Observable side effects of the engine: the two kinds of network
request and the ledger write. -/
inductive Ev where
  | resolveCall (projectID fileID : String)
  | fetchCall (url : String)
  | writeLedger
deriving DecidableEq

/-- The run-time value of the `mod_failures` variable.  It starts as a
list and entries are appended on resolution failure (line 321), but
line 345 assigns the boolean `True` to it and line 375 assigns `None`;
all three shapes occur at run time. -/
inductive FailVal where
  | flist (l : List ModEntry)
  | ftrue
  | fnone
deriving DecidableEq

/-- `mod_failures.append(mod)`: only a list has `append`; on `True` or
`None` the call raises `AttributeError` (modelled as `none`). -/
def FailVal.append : FailVal → ModEntry → Option FailVal
  | .flist l, m => some (.flist (l ++ [m]))
  | .ftrue, _ => none
  | .fnone, _ => none

/-- Python truthiness of the `mod_failures` value. -/
def FailVal.truthy : FailVal → Bool
  | .flist l => !l.isEmpty
  | .ftrue => true
  | .fnone => false

/-- How one entry of the loop body ended. -/
inductive Outcome where
  | skipped        -- line 300: fast skip after md5 validation
  | skippedQuiet   -- line 348: the else-branch skip
  | acquired       -- lines 341-346 with a path returned
  | failedResolve  -- line 322: resolution failed, reference appended
  | failedTransfer -- line 345: transfer failed, `mod_failures = True`
  | noUrl          -- line 325 false: resolution returned falsy text
deriving DecidableEq

/-- Control flow out of one loop iteration. -/
inductive EntryStep where
  | cont (o : Outcome)  -- fall through / `continue`
  | interrupted         -- `KeyboardInterrupt`: `interrupted = True; break`
  | pyError             -- unhandled exception (`.append` on a non-list)
deriving DecidableEq

/-- The mutable state threaded through the `while retry` loop. -/
structure LoopState where
  progress : Ledger
  fs : FS
  modified : Bool
  failures : FailVal
deriving DecidableEq

/-- Result of `download_file` as the caller sees it, plus effects. -/
structure DlOut where
  resp : Option Response
  path : Option Filename
  fs : FS
  events : List Ev
  interrupted : Bool
deriving DecidableEq

/-- Line 69: `not force and file_path.exists() and (md5 is None or
validate_file(file_path, md5))`. -/
def alreadySatisfied (md5F : Bytes → String) (url : String) (force : Bool)
    (md5 : Option String) (fs : FS) : Bool :=
  !force && (FS.read fs (lastSeg url)).isSome &&
    (match md5 with
     | none => true
     | some m => validateFile md5F fs (lastSeg url) m)

/-- `download_file(url, directory, force, md5)` (lines 53-99).  The
already-satisfied path returns `(None, file_path)` without any network
call; otherwise one GET is issued: an exception or falsy response
yields `(None, None)` with nothing written, a `KeyboardInterrupt` is
re-raised (line 77-78), and a truthy response is written to the
destination.  Lines 86-88 and 94-97 (defaulting the local `md5` to the
ETag and validating the fresh file) only affect console output, the
return value is independent of them. -/
def downloadFile (env : Env) (url : String) (force : Bool) (md5 : Option String)
    (fs : FS) : DlOut :=
  if alreadySatisfied env.md5 url force md5 fs then
    ⟨none, some (lastSeg url), fs, [], false⟩
  else
    match env.fetch url with
    | .interrupt => ⟨none, none, fs, [.fetchCall url], true⟩
    | .fail => ⟨none, none, fs, [.fetchCall url], false⟩
    | .ok r => ⟨some r, some (lastSeg url), FS.write fs (lastSeg url) r.content,
                [.fetchCall url], false⟩

/-- Lines 272-277 flattened: the record for the entry's key and whether
it had to be created (`progress_modified = True`). -/
def rawAt (prog : Ledger) (m : ModEntry) : RawRecord × Bool :=
  match Ledger.find prog m.key with
  | some r => (r, false)
  | none => (emptyRaw, true)

/-- Lines 325-346: the `if file_url:` block.  `u` is the known URL,
`evs` the events of the preceding resolution step. -/
def downloadPart (env : Env) (argsForce : Bool) (st : LoopState) (key : Key)
    (record : Record) (modified : Bool) (u : String) (evs : List Ev) :
    LoopState × List Ev × EntryStep :=
  -- lines 326-328: persist the URL into the record before the transfer
  let recM : Record × Bool :=
    if !optTruthy record.url || record.url != some u then
      ({ record with url := some u }, true)
    else (record, modified)
  let record := recM.1
  let modified := recM.2
  -- line 331: `download_file(file_url, mod_download_path, args.force, mod_info["md5"])`
  let dl := downloadFile env u argsForce (some record.md5) st.fs
  if dl.interrupted then
    ({ st with progress := Ledger.store st.progress key record.toRaw, fs := dl.fs,
               modified := modified },
     evs ++ dl.events, .interrupted)
  else
    -- lines 332-336: refresh the stored md5 from the response ETag
    let recM2 : Record × Bool :=
      match dl.resp with
      | some r => if record.md5 != r.etag then ({ record with md5 := r.etag }, true)
                  else (record, modified)
      | none => (record, modified)
    let record := recM2.1
    let modified := recM2.2
    -- lines 341-346
    match dl.path with
    | some p =>
      let record := { record with name := some p, downloaded := true }
      ({ st with progress := Ledger.store st.progress key record.toRaw, fs := dl.fs,
                 modified := true },
       evs ++ dl.events, .cont .acquired)
    | none =>
      -- line 345: `mod_failures = True` — the list is replaced by a boolean
      let record := { record with downloaded := false }
      ({ st with progress := Ledger.store st.progress key record.toRaw, fs := dl.fs,
                 modified := modified, failures := .ftrue },
       evs ++ dl.events, .cont .failedTransfer)

/-- Lines 306-348 after the download-branch test: resolution
(lines 307-322) followed by the `if file_url:` block. -/
def resolvePart (env : Env) (argsForce : Bool) (st : LoopState) (m : ModEntry)
    (record : Record) (modified : Bool) : LoopState × List Ev × EntryStep :=
  if optTruthy record.url then
    downloadPart env argsForce st m.key record modified (record.url.getD "") []
  else
    match env.resolve m.projectID m.fileID with
    | .interrupt =>
      ({ st with progress := Ledger.store st.progress m.key record.toRaw,
                 modified := modified },
       [.resolveCall m.projectID m.fileID], .interrupted)
    | .fail =>
      match st.failures.append m with
      | some f =>
        ({ st with progress := Ledger.store st.progress m.key record.toRaw,
                   modified := modified, failures := f },
         [.resolveCall m.projectID m.fileID], .cont .failedResolve)
      | none =>
        ({ st with progress := Ledger.store st.progress m.key record.toRaw,
                   modified := modified },
         [.resolveCall m.projectID m.fileID], .pyError)
    | .ok t =>
      if t != "" then
        downloadPart env argsForce st m.key record modified t
          [.resolveCall m.projectID m.fileID]
      else
        ({ st with progress := Ledger.store st.progress m.key record.toRaw,
                   modified := modified },
         [.resolveCall m.projectID m.fileID], .cont .noUrl)

/-- One iteration of `for mod in manifest["files"]` (lines 267-348).
The record is written back on every exit path, matching the script's
in-place dict mutation. -/
def processEntry (env : Env) (argsForce : Bool) (st : LoopState) (m : ModEntry) :
    LoopState × List Ev × EntryStep :=
  let ra := rawAt st.progress m
  let ir := initRecord ra.1
  let record := ir.1
  let filled := ir.2
  let modified := (st.modified || ra.2) || filled
  let forceDownload := argsForce || filled
  -- lines 296-303: fast-skip validation
  if (!forceDownload && record.downloaded && optTruthy record.name && (record.md5 != "")) &&
      validateFile env.md5 st.fs (record.name.getD "") record.md5 then
    ({ st with progress := Ledger.store st.progress m.key record.toRaw,
               modified := modified },
     [], .cont .skipped)
  else
    let forceDownload := forceDownload ||
      (!forceDownload && record.downloaded && optTruthy record.name && (record.md5 != ""))
    -- line 306
    if forceDownload || !optTruthy record.name || !record.downloaded ||
        !optTruthy record.url || record.md5 == "" then
      resolvePart env argsForce st m record modified
    else
      -- lines 347-348
      ({ st with progress := Ledger.store st.progress m.key record.toRaw,
                 modified := modified },
       [], .cont .skippedQuiet)

/-- How one pass over the manifest ended. -/
inductive PassEnding where
  | completed    -- the `for` loop exhausted the sequence
  | interrupted  -- `break` after a `KeyboardInterrupt`
  | errored      -- an unhandled exception escaped the loop
deriving DecidableEq

/-- Result of one pass over the manifest. -/
structure PassOut where
  st : LoopState
  entryEvents : List Ev
  outcomes : List Outcome
  ending : PassEnding
deriving DecidableEq

/-- One pass of the `for` loop over the manifest entries. -/
def runPassAux (env : Env) (argsForce : Bool) : List ModEntry → LoopState → PassOut
  | [], st => ⟨st, [], [], .completed⟩
  | m :: ms, st =>
    match processEntry env argsForce st m with
    | (st1, evs, .cont o) =>
      let p := runPassAux env argsForce ms st1
      ⟨p.st, evs ++ p.entryEvents, o :: p.outcomes, p.ending⟩
    | (st1, evs, .interrupted) => ⟨st1, evs, [], .interrupted⟩
    | (st1, evs, .pyError) => ⟨st1, evs, [], .errored⟩

/-- What the `finally` block decides to do next. -/
inductive Decision where
  | exitInterrupted  -- line 391: `sys.exit` after an interrupt
  | exitAbort        -- line 393: `sys.exit` after the operator answered no
  | exitErrored      -- the re-raised exception propagates out
  | retryPass        -- the `while retry` loop runs another pass
  | finished         -- fall through to the post-processing steps
deriving DecidableEq

/-- Result of the `finally` block. -/
structure FinishOut where
  st : LoopState
  events : List Ev
  writes : List Ledger
  decision : Decision
deriving DecidableEq

/-- Lines 362-393: the `finally` block.  The operator is prompted only
when not interrupted and `mod_failures` is truthy; a yes answer resets
`mod_failures` to `None` and requests another pass.  The ledger is
written exactly when `progress_modified` is set, after the prompt.
`answers` yields the first valid reply for each prompt. -/
def finishPass (answers : Nat → Bool) (pIdx : Nat) (st : LoopState)
    (ending : PassEnding) : FinishOut :=
  let interrupted := ending == PassEnding.interrupted
  let prompted := !interrupted && st.failures.truthy
  let ans : Option Bool := if prompted then some (answers pIdx) else none
  let retry := ans == some true
  let st := if retry then { st with failures := .fnone } else st
  let wr : List Ev × List Ledger :=
    if st.modified then ([.writeLedger], [st.progress]) else ([], [])
  let decision :=
    if interrupted then Decision.exitInterrupted
    else if ans == some false then Decision.exitAbort
    else if ending == PassEnding.errored then Decision.exitErrored
    else if retry then Decision.retryPass
    else Decision.finished
  ⟨st, wr.1, wr.2, decision⟩

/-- How the whole mods phase ended. -/
inductive ExitKind where
  | cleanFinish  -- proceeds to overrides merge and README
  | interrupted  -- `sys.exit("Keyboard interrupted.")`
  | userAbort    -- `sys.exit("Error: Failed to download all mods.")`
  | pyError      -- unhandled exception
  | outOfFuel    -- modelling artefact: pass budget exhausted
deriving DecidableEq

/-- Aggregate result of the `while retry` loop. -/
structure RunOut where
  st : LoopState
  events : List Ev
  writes : List Ledger
  lastOutcomes : List Outcome
  exit : ExitKind
deriving DecidableEq

/-- The `while retry` loop (lines 263-393), with a pass budget standing
in for the unbounded `while`. -/
def runLoop (env : Env) (argsForce : Bool) (manifest : List ModEntry)
    (answers : Nat → Bool) : Nat → Nat → LoopState → RunOut
  | 0, _, st => ⟨st, [], [], [], .outOfFuel⟩
  | Nat.succ fuel, pIdx, st =>
    let p := runPassAux env argsForce manifest st
    let f := finishPass answers pIdx p.st p.ending
    match f.decision with
    | .retryPass =>
      let r := runLoop env argsForce manifest answers fuel (pIdx + 1) f.st
      ⟨r.st, (p.entryEvents ++ f.events) ++ r.events, f.writes ++ r.writes,
       r.lastOutcomes, r.exit⟩
    | .exitInterrupted => ⟨f.st, p.entryEvents ++ f.events, f.writes, p.outcomes, .interrupted⟩
    | .exitAbort => ⟨f.st, p.entryEvents ++ f.events, f.writes, p.outcomes, .userAbort⟩
    | .exitErrored => ⟨f.st, p.entryEvents ++ f.events, f.writes, p.outcomes, .pyError⟩
    | .finished => ⟨f.st, p.entryEvents ++ f.events, f.writes, p.outcomes, .cleanFinish⟩

/-- Lines 250-257: load `progress.json`.  `file` is `none` when the
file does not exist, `some s` its content otherwise; `parse` is the
typed reading of the JSON text, `none` on malformed content
(`json.loads` raising).  An absent or empty file yields the empty
ledger; malformed content propagates the error. -/
def loadProgress (parse : String → Option Ledger) (file : Option String) :
    Except Unit Ledger :=
  match file with
  | some s =>
    if s != "" then
      match parse s with
      | some l => Except.ok l
      | none => Except.error ()
    else Except.ok []
  | none => Except.ok []

/-- Ledger load followed by the acquisition loop: on a load error no
per-component work happens (the exception propagates before the loop). -/
def modsPhase (parse : String → Option Ledger) (file : Option String) (env : Env)
    (argsForce : Bool) (manifest : List ModEntry) (answers : Nat → Bool)
    (fuel : Nat) (fs0 : FS) : List Ev × Except Unit RunOut :=
  match loadProgress parse file with
  | .error e => ([], .error e)
  | .ok l =>
    let r := runLoop env argsForce manifest answers fuel 0 ⟨l, fs0, false, .flist []⟩
    (r.events, .ok r)

/-- A network event (resolution or transfer), as opposed to the ledger write. -/
def Ev.isNet : Ev → Bool
  | .writeLedger => false
  | _ => true

/-- A record that lets the fast-skip path (lines 296-301) fire on the
next encounter: all four keys present, `downloaded`, a truthy `name`,
a non-empty `md5`, and the staged file validating against it. -/
def recordReady (md5F : Bytes → String) (fs : FS) (raw : RawRecord) : Bool :=
  match raw.name?, raw.url?, raw.md5?, raw.downloaded? with
  | some nm, some _, some h, some dl =>
    dl && optTruthy nm && (h != "") && validateFile md5F fs (nm.getD "") h
  | _, _, _, _ => false

/-- The entry's ledger record exists and is ready for the fast skip. -/
def entryReady (md5F : Bytes → String) (prog : Ledger) (fs : FS) (m : ModEntry) : Bool :=
  match Ledger.find prog m.key with
  | some raw => recordReady md5F fs raw
  | none => false

/-- A transfer whose response carries an entity tag equal to the digest
of the delivered bytes (and digests are never empty). -/
def honestFetch (env : Env) : Prop :=
  ∀ u r, env.fetch u = NetResult.ok r → r.etag = env.md5 r.content ∧ r.etag ≠ ""

/-- Every successful URL resolution yields a URL with a non-empty final
path segment (in particular, non-empty text). -/
def resolveSegOK (env : Env) : Prop :=
  ∀ p f t, env.resolve p f = NetResult.ok t → lastSeg t ≠ ""

/-- A stored non-empty URL has a non-empty final path segment. -/
def urlSegOK (raw : RawRecord) : Prop :=
  ∀ u, raw.url? = some (some u) → u ≠ "" → lastSeg u ≠ ""

/-- The filenames an entry's processing can read or write: its stored
`name`, the segment of its stored URL, and the segment of the URL its
resolution would return. -/
def candNames (env : Env) (prog : Ledger) (m : ModEntry) : List String :=
  (match Ledger.find prog m.key with
   | some raw =>
     (match raw.name? with | some (some n) => [n] | _ => []) ++
     (match raw.url? with
      | some (some u) => if u != "" then [lastSeg u] else []
      | _ => [])
   | none => []) ++
  (match env.resolve m.projectID m.fileID with
   | .ok t => [lastSeg t]
   | _ => [])

/-- Manifest entries with pairwise distinct ledger keys and pairwise
disjoint candidate filenames. -/
def entriesSeparated (env : Env) (prog : Ledger) (ms : List ModEntry) : Prop :=
  List.Pairwise (fun m1 m2 => m1.key ≠ m2.key ∧
    ∀ n, n ∈ candNames env prog m1 → n ∉ candNames env prog m2) ms

/-! Concrete inputs used to evaluate the engine at the failure points of
the claims.  `md5H` is the digest function of all concrete scenarios. -/

def md5H : Bytes → String := fun s => "h" ++ s

/-- C1 scenario: entry (100,200) resolves and transfers fine, entry
(101,201) resolves but its transfer fails. -/
def envC1 : Env :=
  ⟨fun p _ => if p = "100" then .ok "host/a.jar" else .ok "host/b.jar",
   fun u => if u = "host/a.jar" then .ok ⟨"A", "hA"⟩ else .fail,
   md5H⟩

def outC1 : RunOut :=
  runLoop envC1 false [⟨"100", "200"⟩, ⟨"101", "201"⟩] (fun _ => false) 2 0
    ⟨[], [], false, .flist []⟩

/-- C2 scenario: the single entry's transfer fails on both passes; the
operator retries once, then aborts. -/
def envC2 : Env := ⟨fun _ _ => .ok "host/f.jar", fun _ => .fail, md5H⟩

def outC2 : RunOut :=
  runLoop envC2 false [⟨"100", "200"⟩] (fun i => i == 0) 3 0 ⟨[], [], false, .flist []⟩

/-- C3 counterexample scenario: the transfer succeeds but its entity tag
`"BAD"` is not the digest of the delivered bytes `"F"`. -/
def envC3ce : Env := ⟨fun _ _ => .ok "host/f.jar", fun _ => .ok ⟨"F", "BAD"⟩, md5H⟩

def outC3a : RunOut :=
  runLoop envC3ce false [⟨"100", "200"⟩] (fun _ => false) 1 0 ⟨[], [], false, .flist []⟩

def outC3b : RunOut :=
  runLoop envC3ce false [⟨"100", "200"⟩] (fun _ => false) 1 0
    ⟨outC3a.st.progress, outC3a.st.fs, false, .flist []⟩

/-- C4 scenario: transfer delivers bytes `"X"` with entity tag `"BAD"`;
the written file does not validate against the stored digest. -/
def envC4 : Env := ⟨fun _ _ => .ok "host/f.jar", fun _ => .ok ⟨"X", "BAD"⟩, md5H⟩

def outC4 : RunOut :=
  runLoop envC4 false [⟨"100", "200"⟩] (fun _ => false) 1 0 ⟨[], [], false, .flist []⟩

/-- C5 scenario: both entries are recorded complete but their staged
files are gone; entry 1's re-download fails, entry 2's is interrupted. -/
def progC5 : Ledger :=
  [(("100", "200"), ⟨some (some "a.jar"), some (some "host/a.jar"), some "ha", some true⟩),
   (("101", "201"), ⟨some (some "b.jar"), some (some "host/b.jar"), some "hb", some true⟩)]

def envC5 : Env :=
  ⟨fun _ _ => .fail,
   fun u => if u = "host/a.jar" then .fail else .interrupt,
   md5H⟩

def outC5 : RunOut :=
  runLoop envC5 false [⟨"100", "200"⟩, ⟨"101", "201"⟩] (fun _ => false) 1 0
    ⟨progC5, [], false, .flist []⟩

/-- Environment for the C6 witness (its network is never consulted). -/
def envC6w : Env := ⟨fun _ _ => .fail, fun _ => .fail, fun _ => ""⟩

/-- Environment for the C7 witness. -/
def envC7w : Env := ⟨fun _ _ => .fail, fun _ => .fail, md5H⟩

/-- Environment for the C9 witness: every fetch fails. -/
def envC9w : Env := ⟨fun _ _ => .fail, fun _ => .fail, md5H⟩

/-- Environment for the C8 witness: resolution succeeds, transfer fails. -/
def envC8w : Env := ⟨fun _ _ => .ok "host/f.jar", fun _ => .fail, md5H⟩

/-- Environment for the C10 witness: resolution fails. -/
def envC10w : Env := ⟨fun _ _ => .fail, fun _ => .fail, md5H⟩

/-- Environment for the C3 witness: honest transfers (ETag equals the
digest of the delivered bytes). -/
def envC3w : Env := ⟨fun _ _ => .ok "host/f.jar", fun _ => .ok ⟨"F", "hF"⟩, md5H⟩

/-- Environment and pre-populated state for the C2 witness: nothing to
download, the one entry is ready to fast-skip. -/
def envC2w : Env := ⟨fun _ _ => .fail, fun _ => .fail, md5H⟩

def progC2w : Ledger :=
  [(("100", "200"), ⟨some (some "f.jar"), some (some "host/f.jar"), some "hF", some true⟩)]

def fsC2w : FS := [("f.jar", "F")]

section LedgerLemmas

theorem Ledger.find_store_self (l : Ledger) (k : Key) (r : RawRecord) :
    Ledger.find (Ledger.store l k r) k = some r := by
  induction l with
  | nil => simp [Ledger.store, Ledger.find]
  | cons p rest ih =>
    obtain ⟨k', r'⟩ := p
    by_cases h : k' = k
    · simp [Ledger.store, Ledger.find, h]
    · simpa [Ledger.store, Ledger.find, h] using ih

theorem Ledger.find_store_ne (l : Ledger) (k k' : Key) (r : RawRecord) (h : k' ≠ k) :
    Ledger.find (Ledger.store l k r) k' = Ledger.find l k' := by
  induction l with
  | nil => simp [Ledger.store, Ledger.find, Ne.symm h]
  | cons p rest ih =>
    obtain ⟨k₀, r₀⟩ := p
    by_cases h0 : k₀ = k
    · subst h0
      simp [Ledger.store, Ledger.find, Ne.symm h, h]
    · by_cases h1 : k₀ = k'
      · simp [Ledger.store, Ledger.find, h0, h1, h]
      · simpa [Ledger.store, Ledger.find, h0, h1] using ih

theorem Ledger.store_self (l : Ledger) (k : Key) (r : RawRecord)
    (h : Ledger.find l k = some r) : Ledger.store l k r = l := by
  induction l with
  | nil => simp [Ledger.find] at h
  | cons p rest ih =>
    obtain ⟨k₀, r₀⟩ := p
    by_cases h0 : k₀ = k
    · subst h0
      simp [Ledger.find] at h
      simp [Ledger.store, h]
    · simp [Ledger.find, h0] at h
      simp [Ledger.store, h0, ih h]

theorem FS.read_write_self (fs : FS) (n : Filename) (b : Bytes) :
    FS.read (FS.write fs n b) n = some b := by
  induction fs with
  | nil => simp [FS.write, FS.read]
  | cons p rest ih =>
    obtain ⟨m, c⟩ := p
    by_cases h : m = n
    · simp [FS.write, FS.read, h]
    · simpa [FS.write, FS.read, h] using ih

theorem FS.read_write_ne (fs : FS) (n n' : Filename) (b : Bytes) (h : n' ≠ n) :
    FS.read (FS.write fs n b) n' = FS.read fs n' := by
  induction fs with
  | nil => simp [FS.write, FS.read, Ne.symm h]
  | cons p rest ih =>
    obtain ⟨m, c⟩ := p
    by_cases h0 : m = n
    · subst h0
      simp [FS.write, FS.read, Ne.symm h, h]
    · by_cases h1 : m = n'
      · simp [FS.write, FS.read, h0, h1, h]
      · simpa [FS.write, FS.read, h0, h1] using ih

theorem validateFile_md5_ne_empty (md5F : Bytes → String) (fs : FS) (p : Filename)
    (h : String) (hv : validateFile md5F fs p h = true) : h ≠ "" := by
  intro he
  subst he
  unfold validateFile at hv
  split at hv
  · exact absurd hv (by simp)
  · simp at hv

end LedgerLemmas

section EventLemmas

theorem downloadFile_mem_events (env : Env) (url : String) (force : Bool)
    (md5 : Option String) (fs : FS) :
    ∀ ev ∈ (downloadFile env url force md5 fs).events, ev = Ev.fetchCall url := by
  intro ev h
  unfold downloadFile at h
  split at h
  · simp at h
  · split at h <;> simpa using h

theorem downloadPart_events_sub (env : Env) (af : Bool) (st : LoopState) (key : Key)
    (record : Record) (modified : Bool) (u : String) (evs0 : List Ev) :
    ∀ ev ∈ (downloadPart env af st key record modified u evs0).2.1,
      ev ∈ evs0 ∨ ev = Ev.fetchCall u := by
  intro ev hev
  simp only [downloadPart] at hev
  have hmem : ev ∈ evs0 ++ (downloadFile env u af (some record.md5) st.fs).events := by
    split at hev <;> split at hev <;>
      first
      | simpa using hev
      | (split at hev <;> simpa using hev)
  rcases List.mem_append.mp hmem with h | h
  · exact Or.inl h
  · exact Or.inr (downloadFile_mem_events _ _ _ _ _ ev h)

theorem resolvePart_events_sub (env : Env) (af : Bool) (st : LoopState) (m : ModEntry)
    (record : Record) (modified : Bool) :
    ∀ ev ∈ (resolvePart env af st m record modified).2.1,
      ev = Ev.resolveCall m.projectID m.fileID ∨ ∃ u, ev = Ev.fetchCall u := by
  intro ev hev
  simp only [resolvePart] at hev
  split at hev
  · rcases downloadPart_events_sub env af st m.key _ _ _ [] ev hev with h | h
    · simp at h
    · exact Or.inr ⟨_, h⟩
  · repeat' (split at hev)
    all_goals
      first
      | (simp at hev; exact Or.inl hev)
      | (rcases downloadPart_events_sub env af st m.key _ _ _
           [Ev.resolveCall m.projectID m.fileID] ev hev with h | h
         · simp at h; exact Or.inl h
         · exact Or.inr ⟨_, h⟩)

theorem processEntry_events_sub (env : Env) (af : Bool) (st : LoopState) (m : ModEntry) :
    ∀ ev ∈ (processEntry env af st m).2.1,
      ev = Ev.resolveCall m.projectID m.fileID ∨
      ∃ u, ev = Ev.fetchCall u := by
  intro ev hev
  simp only [processEntry] at hev
  split at hev
  · simp at hev
  · split at hev
    · exact resolvePart_events_sub env af st m _ _ ev hev
    · simp at hev

theorem processEntry_no_write (env : Env) (af : Bool) (st : LoopState) (m : ModEntry) :
    Ev.writeLedger ∉ (processEntry env af st m).2.1 := by
  intro h
  rcases processEntry_events_sub env af st m Ev.writeLedger h with h' | ⟨u, h'⟩ <;>
    exact absurd h' (by simp)

theorem runPassAux_no_write (env : Env) (af : Bool) (ms : List ModEntry) (st : LoopState) :
    Ev.writeLedger ∉ (runPassAux env af ms st).entryEvents := by
  induction ms generalizing st with
  | nil => simp [runPassAux]
  | cons m ms ih =>
    intro h
    unfold runPassAux at h
    rcases hp : processEntry env af st m with ⟨st1, evs, step⟩
    rw [hp] at h
    have hevs : Ev.writeLedger ∉ evs := by
      have := processEntry_no_write env af st m
      rw [hp] at this; exact this
    cases step with
    | cont o =>
      simp only [List.mem_append] at h
      rcases h with h | h
      · exact hevs h
      · exact ih st1 h
    | interrupted => exact hevs h
    | pyError => exact hevs h

end EventLemmas

section PlannerLemmas

/-- All exits of the `if file_url:` block leave the used URL stored in
the record and the dirty flag set, provided the record's URL was falsy
on entry (lines 326-328 run before `download_file` is invoked). -/
theorem downloadPart_after_resolve (env : Env) (af : Bool) (st : LoopState) (key : Key)
    (record : Record) (modified : Bool) (u : String) (evs0 : List Ev)
    (hurl : optTruthy record.url = false) :
    (∃ raw, Ledger.find (downloadPart env af st key record modified u evs0).1.progress key =
      some raw ∧ raw.url? = some (some u)) ∧
    (downloadPart env af st key record modified u evs0).1.modified = true := by
  refine ⟨?_, ?_⟩ <;>
  · simp only [downloadPart, hurl, Bool.not_false, Bool.true_or, if_true]
    repeat' split
    all_goals simp [Ledger.find_store_self, Record.toRaw]

/-- A resolution request is issued only when the record's URL is falsy
(absent, `None` or empty) after default-filling. -/
theorem processEntry_resolve_gated (env : Env) (af : Bool) (st : LoopState)
    (m : ModEntry) (p f : String)
    (hres : Ev.resolveCall p f ∈ (processEntry env af st m).2.1) :
    optTruthy (initRecord (rawAt st.progress m).1).1.url = false := by
  by_contra hurl
  rw [Bool.not_eq_false] at hurl
  revert hres
  simp only [processEntry]
  split
  · simp
  · split
    · simp only [resolvePart, hurl, if_true]
      intro hres
      rcases downloadPart_events_sub env af st m.key _ _ _ [] _ hres with h | h
      · simp at h
      · exact Ev.noConfusion h
    · simp

/-- When an entry both resolves a URL and attempts a transfer, the
resolved URL (non-empty) ends up stored in the entry's record and the
ledger is dirty, whatever the transfer's result. -/
theorem processEntry_fetch_after_resolve (env : Env) (af : Bool) (st : LoopState)
    (m : ModEntry) (u p f : String)
    (hurl : optTruthy (initRecord (rawAt st.progress m).1).1.url = false)
    (hres : Ev.resolveCall p f ∈ (processEntry env af st m).2.1)
    (hfet : Ev.fetchCall u ∈ (processEntry env af st m).2.1) :
    u ≠ "" ∧
    (∃ raw, Ledger.find (processEntry env af st m).1.progress m.key = some raw ∧
      raw.url? = some (some u)) ∧
    (processEntry env af st m).1.modified = true := by
  revert hres hfet
  simp only [processEntry]
  split
  · simp
  · split
    · simp only [resolvePart, hurl, Bool.false_eq_true, if_false]
      repeat' split
      all_goals intro hres hfet
      all_goals
        first
        | simp at hfet
        | (rcases downloadPart_events_sub env af st m.key _ _ _
             [Ev.resolveCall m.projectID m.fileID] _ hfet with h | h
           · simp at h
           · injection h with hu
             subst hu
             refine ⟨?_, (downloadPart_after_resolve env af st m.key _ _ _ _ hurl).1,
               (downloadPart_after_resolve env af st m.key _ _ _ _ hurl).2⟩
             intro he
             simp_all)
    · simp

/-- With the dirty/force flag passed in as `true`, every exit of the
`if file_url:` block leaves the ledger dirty and is not a skip. -/
theorem downloadPart_modified_true (env : Env) (af : Bool) (st : LoopState) (key : Key)
    (record : Record) (u : String) (evs0 : List Ev) :
    (downloadPart env af st key record true u evs0).1.modified = true ∧
    (downloadPart env af st key record true u evs0).2.2 ≠ EntryStep.cont Outcome.skipped ∧
    (downloadPart env af st key record true u evs0).2.2 ≠ EntryStep.cont Outcome.skippedQuiet := by
  refine ⟨?_, ?_, ?_⟩ <;>
  · simp only [downloadPart]
    repeat' split
    all_goals simp

/-- Same for the resolution step. -/
theorem resolvePart_modified_true (env : Env) (af : Bool) (st : LoopState)
    (m : ModEntry) (record : Record) :
    (resolvePart env af st m record true).1.modified = true ∧
    (resolvePart env af st m record true).2.2 ≠ EntryStep.cont Outcome.skipped ∧
    (resolvePart env af st m record true).2.2 ≠ EntryStep.cont Outcome.skippedQuiet := by
  refine ⟨?_, ?_, ?_⟩ <;>
  · simp only [resolvePart]
    repeat' split
    all_goals
      first
      | (simp; done)
      | exact (downloadPart_modified_true _ _ _ _ _ _ _).1
      | exact (downloadPart_modified_true _ _ _ _ _ _ _).2.1
      | exact (downloadPart_modified_true _ _ _ _ _ _ _).2.2

/-- If default-filling had to add any key, the entry is forced down the
download branch: the result is never a skip and the dirty flag is set. -/
theorem processEntry_filled (env : Env) (af : Bool) (st : LoopState) (m : ModEntry)
    (hfill : (initRecord (rawAt st.progress m).1).2 = true) :
    (processEntry env af st m).1.modified = true ∧
    (processEntry env af st m).2.2 ≠ EntryStep.cont Outcome.skipped ∧
    (processEntry env af st m).2.2 ≠ EntryStep.cont Outcome.skippedQuiet := by
  have h3 := resolvePart_modified_true env af st m (initRecord (rawAt st.progress m).1).1
  simp only [processEntry, hfill, Bool.or_true, Bool.not_true, Bool.false_and,
    Bool.true_or] at h3 ⊢
  simpa using h3

end PlannerLemmas

section ReadyLemmas

/-- A ready entry (all keys present, downloaded, truthy name, non-empty
validated digest) fast-skips without force: no events, no state change. -/
theorem processEntry_ready (env : Env) (st : LoopState) (m : ModEntry)
    (h : entryReady env.md5 st.progress st.fs m = true) :
    processEntry env false st m = (st, [], EntryStep.cont Outcome.skipped) := by
  obtain ⟨prog, fs, md, fl⟩ := st
  simp only [entryReady] at h
  rcases hfind : Ledger.find prog m.key with _ | raw
  · rw [hfind] at h; simp at h
  · rw [hfind] at h
    obtain ⟨nm?, u?, h5?, dl?⟩ := raw
    rcases nm? with _ | nm
    · simp [recordReady] at h
    rcases u? with _ | uu
    · simp [recordReady] at h
    rcases h5? with _ | h5
    · simp [recordReady] at h
    rcases dl? with _ | dl
    · simp [recordReady] at h
    simp only [recordReady, Bool.and_eq_true] at h
    obtain ⟨⟨⟨hdl, hnm⟩, hh5⟩, hval⟩ := h
    subst hdl
    have hstore : Ledger.store prog m.key ⟨some nm, some uu, some h5, some true⟩ = prog :=
      Ledger.store_self prog m.key _ hfind
    simp only [processEntry, rawAt, hfind, initRecord, Option.getD_some,
      Option.isNone_some, Bool.or_self, Bool.or_false, Bool.not_false,
      Bool.true_and, hnm, hh5, hval, Bool.and_true, Bool.and_self, if_true,
      Record.toRaw]
    simp [hstore]

/-- A pass over ready entries is a pure no-op: same state, no events,
every entry `Skipped`. -/
theorem runPassAux_ready (env : Env) (ms : List ModEntry) (st : LoopState)
    (h : ∀ m ∈ ms, entryReady env.md5 st.progress st.fs m = true) :
    runPassAux env false ms st =
      ⟨st, [], ms.map (fun _ => Outcome.skipped), PassEnding.completed⟩ := by
  induction ms with
  | nil => rfl
  | cons m ms ih =>
    have hm := h m (List.mem_cons_self m ms)
    have ih' := ih (fun m' hm' => h m' (List.mem_cons_of_mem m hm'))
    simp only [runPassAux, processEntry_ready env st m hm, ih']
    simp

/-- The `finally` block writes the ledger exactly when the dirty flag is
set, and then exactly once; the prompt step never changes the flag or
the ledger contents. -/
theorem finishPass_write_gate (answers : Nat → Bool) (pIdx : Nat) (st : LoopState)
    (ending : PassEnding) :
    (finishPass answers pIdx st ending).events =
      (if st.modified then [Ev.writeLedger] else []) ∧
    (finishPass answers pIdx st ending).writes =
      (if st.modified then [st.progress] else []) := by
  constructor <;>
  · simp only [finishPass]
    repeat' split
    all_goals simp_all

end ReadyLemmas

section CleanRunLemmas

theorem lastSeg_empty : lastSeg "" = "" := rfl

theorem validateFile_congr (md5F : Bytes → String) (fs1 fs2 : FS) (n : Filename)
    (h5 : String) (hr : FS.read fs1 n = FS.read fs2 n) :
    validateFile md5F fs1 n h5 = validateFile md5F fs2 n h5 := by
  unfold validateFile
  rw [hr]

/-- The four possible behaviours of `download_file` called with a
string digest and no force. -/
theorem downloadFile_clean (env : Env) (u : String) (md5s : String) (fs : FS) :
    (env.fetch u = NetResult.interrupt ∧
      downloadFile env u false (some md5s) fs =
        ⟨none, none, fs, [Ev.fetchCall u], true⟩) ∨
    (env.fetch u = NetResult.fail ∧
      downloadFile env u false (some md5s) fs =
        ⟨none, none, fs, [Ev.fetchCall u], false⟩) ∨
    (validateFile env.md5 fs (lastSeg u) md5s = true ∧
      downloadFile env u false (some md5s) fs =
        ⟨none, some (lastSeg u), fs, [], false⟩) ∨
    (∃ r, env.fetch u = NetResult.ok r ∧
      downloadFile env u false (some md5s) fs =
        ⟨some r, some (lastSeg u), FS.write fs (lastSeg u) r.content,
          [Ev.fetchCall u], false⟩) := by
  by_cases hs : alreadySatisfied env.md5 u false (some md5s) fs = true
  · refine Or.inr (Or.inr (Or.inl ⟨?_, by simp [downloadFile, hs]⟩))
    simp only [alreadySatisfied, Bool.not_false, Bool.true_and, Bool.and_eq_true] at hs
    exact hs.2
  · rw [Bool.not_eq_true] at hs
    rcases hfetch : env.fetch u with r | _ | _
    · exact Or.inr (Or.inr (Or.inr ⟨r, rfl, by simp [downloadFile, hs, hfetch]⟩))
    · exact Or.inr (Or.inl ⟨rfl, by simp [downloadFile, hs, hfetch]⟩)
    · exact Or.inl ⟨rfl, by simp [downloadFile, hs, hfetch]⟩

/-- A non-failing, non-interrupted exit of the `if file_url:` block
leaves a fully-ready record keyed by `key`: name = the URL's segment,
the URL itself, a non-empty digest validating the staged file; only
this key and this filename are touched, and failures are untouched. -/
theorem downloadPart_clean (env : Env) (st : LoopState) (key : Key)
    (record : Record) (modified : Bool) (u : String) (evs0 : List Ev)
    (hF : honestFetch env) (st' : LoopState) (evs : List Ev) (o : Outcome)
    (hp : downloadPart env false st key record modified u evs0 = (st', evs, EntryStep.cont o))
    (ho : o ≠ Outcome.failedTransfer) :
    ∃ h5, Ledger.find st'.progress key =
        some ⟨some (some (lastSeg u)), some (some u), some h5, some true⟩ ∧
      h5 ≠ "" ∧ validateFile env.md5 st'.fs (lastSeg u) h5 = true ∧
      (∀ k, k ≠ key → Ledger.find st'.progress k = Ledger.find st.progress k) ∧
      (∀ n, n ≠ lastSeg u → FS.read st'.fs n = FS.read st.fs n) ∧
      st'.failures = st.failures := by
  by_cases hc : (!optTruthy record.url || record.url != some u) = true
  · simp only [downloadPart, hc, if_true] at hp
    rcases downloadFile_clean env u record.md5 st.fs with
      ⟨hf, heq⟩ | ⟨hf, heq⟩ | ⟨hval, heq⟩ | ⟨r, hf, heq⟩
    · rw [heq] at hp
      simp only [Bool.false_eq_true, if_true] at hp
      exact EntryStep.noConfusion (congrArg (fun x => x.2.2) hp)
    · rw [heq] at hp
      simp only [Bool.false_eq_true, if_false] at hp
      rw [Prod.mk.injEq, Prod.mk.injEq] at hp
      obtain ⟨hst, hevs, hstep⟩ := hp
      injection hstep with h3
      exact absurd h3.symm ho
    · rw [heq] at hp
      simp only [Bool.false_eq_true, if_false] at hp
      rw [Prod.mk.injEq, Prod.mk.injEq] at hp
      obtain ⟨hst, hevs, hstep⟩ := hp
      subst hst
      refine ⟨record.md5, ?_, validateFile_md5_ne_empty _ _ _ _ hval, hval, ?_, ?_, rfl⟩
      · simp [Ledger.find_store_self, Record.toRaw]
      · intro k hk
        exact Ledger.find_store_ne _ _ _ _ hk
      · intro n hn
        rfl
    · rw [heq] at hp
      simp only [Bool.false_eq_true, if_false] at hp
      obtain ⟨hetag, hene⟩ := hF u r hf
      by_cases hmd : (record.md5 != r.etag) = true
      · simp only [hmd, if_true] at hp
        rw [Prod.mk.injEq, Prod.mk.injEq] at hp
        obtain ⟨hst, hevs, hstep⟩ := hp
        subst hst
        refine ⟨r.etag, ?_, hene, ?_, ?_, ?_, rfl⟩
        · simp [Ledger.find_store_self, Record.toRaw]
        · simp only [validateFile, FS.read_write_self]
          rw [if_neg (by simp [hene]), hetag]
          simp
        · intro k hk
          exact Ledger.find_store_ne _ _ _ _ hk
        · intro n hn
          exact FS.read_write_ne _ _ _ _ hn
      · rw [Bool.not_eq_true] at hmd
        have hmd5 : record.md5 = r.etag := by
          simpa [bne_eq_false_iff_eq] using hmd
        simp only [hmd, Bool.false_eq_true, if_false] at hp
        rw [Prod.mk.injEq, Prod.mk.injEq] at hp
        obtain ⟨hst, hevs, hstep⟩ := hp
        subst hst
        refine ⟨r.etag, ?_, hene, ?_, ?_, ?_, rfl⟩
        · simp [Ledger.find_store_self, Record.toRaw, hmd5]
        · simp only [validateFile, FS.read_write_self]
          rw [if_neg (by simp [hene]), hetag]
          simp
        · intro k hk
          exact Ledger.find_store_ne _ _ _ _ hk
        · intro n hn
          exact FS.read_write_ne _ _ _ _ hn
  · rw [Bool.not_eq_true] at hc
    have hcc := hc
    simp only [Bool.or_eq_false_iff, Bool.not_eq_false', bne_eq_false_iff_eq] at hcc
    obtain ⟨hcu, hu⟩ := hcc
    simp only [downloadPart, hc, Bool.false_eq_true, if_false] at hp
    rcases downloadFile_clean env u record.md5 st.fs with
      ⟨hf, heq⟩ | ⟨hf, heq⟩ | ⟨hval, heq⟩ | ⟨r, hf, heq⟩
    · rw [heq] at hp
      simp only [Bool.false_eq_true, if_true] at hp
      exact EntryStep.noConfusion (congrArg (fun x => x.2.2) hp)
    · rw [heq] at hp
      simp only [Bool.false_eq_true, if_false] at hp
      rw [Prod.mk.injEq, Prod.mk.injEq] at hp
      obtain ⟨hst, hevs, hstep⟩ := hp
      injection hstep with h3
      exact absurd h3.symm ho
    · rw [heq] at hp
      simp only [Bool.false_eq_true, if_false] at hp
      rw [Prod.mk.injEq, Prod.mk.injEq] at hp
      obtain ⟨hst, hevs, hstep⟩ := hp
      subst hst
      refine ⟨record.md5, ?_, validateFile_md5_ne_empty _ _ _ _ hval, hval, ?_, ?_, rfl⟩
      · simp [Ledger.find_store_self, Record.toRaw, hu]
      · intro k hk
        exact Ledger.find_store_ne _ _ _ _ hk
      · intro n hn
        rfl
    · rw [heq] at hp
      simp only [Bool.false_eq_true, if_false] at hp
      obtain ⟨hetag, hene⟩ := hF u r hf
      by_cases hmd : (record.md5 != r.etag) = true
      · simp only [hmd, if_true] at hp
        rw [Prod.mk.injEq, Prod.mk.injEq] at hp
        obtain ⟨hst, hevs, hstep⟩ := hp
        subst hst
        refine ⟨r.etag, ?_, hene, ?_, ?_, ?_, rfl⟩
        · simp [Ledger.find_store_self, Record.toRaw, hu]
        · simp only [validateFile, FS.read_write_self]
          rw [if_neg (by simp [hene]), hetag]
          simp
        · intro k hk
          exact Ledger.find_store_ne _ _ _ _ hk
        · intro n hn
          exact FS.read_write_ne _ _ _ _ hn
      · rw [Bool.not_eq_true] at hmd
        have hmd5 : record.md5 = r.etag := by
          simpa [bne_eq_false_iff_eq] using hmd
        simp only [hmd, Bool.false_eq_true, if_false] at hp
        rw [Prod.mk.injEq, Prod.mk.injEq] at hp
        obtain ⟨hst, hevs, hstep⟩ := hp
        subst hst
        refine ⟨r.etag, ?_, hene, ?_, ?_, ?_, rfl⟩
        · simp [Ledger.find_store_self, Record.toRaw, hu, hmd5]
        · simp only [validateFile, FS.read_write_self]
          rw [if_neg (by simp [hene]), hetag]
          simp
        · intro k hk
          exact Ledger.find_store_ne _ _ _ _ hk
        · intro n hn
          exact FS.read_write_ne _ _ _ _ hn

/-- A non-failing exit of the resolution-plus-download block: the URL
used is either the stored one or the freshly resolved one, and the
record ends fully ready. -/
theorem resolvePart_clean (env : Env) (st : LoopState) (m : ModEntry)
    (record : Record) (modified : Bool)
    (hF : honestFetch env) (hR : resolveSegOK env)
    (hseg : ∀ u, record.url = some u → u ≠ "" → lastSeg u ≠ "")
    (st' : LoopState) (evs : List Ev) (o : Outcome)
    (hp : resolvePart env false st m record modified = (st', evs, EntryStep.cont o))
    (ho : o ≠ Outcome.failedResolve ∧ o ≠ Outcome.failedTransfer ∧ o ≠ Outcome.noUrl) :
    ∃ u h5, lastSeg u ≠ "" ∧
      ((optTruthy record.url = true ∧ record.url = some u) ∨
        env.resolve m.projectID m.fileID = NetResult.ok u) ∧
      Ledger.find st'.progress m.key =
        some ⟨some (some (lastSeg u)), some (some u), some h5, some true⟩ ∧
      h5 ≠ "" ∧ validateFile env.md5 st'.fs (lastSeg u) h5 = true ∧
      (∀ k, k ≠ m.key → Ledger.find st'.progress k = Ledger.find st.progress k) ∧
      (∀ n, n ≠ lastSeg u → FS.read st'.fs n = FS.read st.fs n) ∧
      st'.failures = st.failures := by
  by_cases hurl : optTruthy record.url = true
  · simp only [resolvePart, hurl, if_true] at hp
    obtain ⟨u0, hu0⟩ : ∃ u0, record.url = some u0 := by
      cases hv : record.url
      · rw [hv] at hurl; simp [optTruthy] at hurl
      · exact ⟨_, rfl⟩
    have hne : u0 ≠ "" := by
      rw [hu0] at hurl; simpa [optTruthy] using hurl
    simp only [hu0, Option.getD_some] at hp
    obtain ⟨h5v, h1, h2, h3, h4, h5f, h6⟩ :=
      downloadPart_clean env st m.key record modified u0 [] hF st' evs o hp ho.2.1
    exact ⟨u0, h5v, hseg u0 hu0 hne, Or.inl ⟨hurl, hu0⟩, h1, h2, h3, h4, h5f, h6⟩
  · rw [Bool.not_eq_true] at hurl
    simp only [resolvePart, hurl, Bool.false_eq_true, if_false] at hp
    rcases hr : env.resolve m.projectID m.fileID with t | _ | _
    · rw [hr] at hp
      by_cases ht : (t != "") = true
      · simp only [ht, if_true] at hp
        obtain ⟨h5v, h1, h2, h3, h4, h5f, h6⟩ :=
          downloadPart_clean env st m.key record modified t
            [Ev.resolveCall m.projectID m.fileID] hF st' evs o hp ho.2.1
        exact ⟨t, h5v, hR _ _ _ hr, Or.inr rfl, h1, h2, h3, h4, h5f, h6⟩
      · rw [Bool.not_eq_true] at ht
        simp only [ht, Bool.false_eq_true, if_false] at hp
        rw [Prod.mk.injEq, Prod.mk.injEq] at hp
        obtain ⟨h1, h2, h3⟩ := hp
        injection h3 with h3
        exact absurd h3.symm ho.2.2
    · rw [hr] at hp
      rcases ha : st.failures.append m with _ | fl
      · rw [ha] at hp
        rw [Prod.mk.injEq, Prod.mk.injEq] at hp
        exact EntryStep.noConfusion hp.2.2
      · rw [ha] at hp
        rw [Prod.mk.injEq, Prod.mk.injEq] at hp
        obtain ⟨h1, h2, h3⟩ := hp
        injection h3 with h3
        exact absurd h3.symm ho.1
    · rw [hr] at hp
      rw [Prod.mk.injEq, Prod.mk.injEq] at hp
      exact EntryStep.noConfusion hp.2.2

/-- Per entry: a `Skipped` or `Acquired` exit (the only non-failing,
non-interrupted outcomes) leaves the entry's record ready, touches only
the entry's own key and candidate filenames, and keeps `mod_failures`. -/
theorem processEntry_clean (env : Env) (st : LoopState) (m : ModEntry)
    (hF : honestFetch env) (hR : resolveSegOK env)
    (hU : ∀ raw, Ledger.find st.progress m.key = some raw → urlSegOK raw)
    (st' : LoopState) (evs : List Ev) (o : Outcome)
    (hp : processEntry env false st m = (st', evs, EntryStep.cont o))
    (ho : o ≠ Outcome.failedResolve ∧ o ≠ Outcome.failedTransfer ∧ o ≠ Outcome.noUrl) :
    entryReady env.md5 st'.progress st'.fs m = true ∧
    (∀ k, k ≠ m.key → Ledger.find st'.progress k = Ledger.find st.progress k) ∧
    (∀ n, n ∉ candNames env st.progress m → FS.read st'.fs n = FS.read st.fs n) ∧
    (∀ raw nm, Ledger.find st'.progress m.key = some raw →
      raw.name? = some (some nm) → nm ∈ candNames env st.progress m) ∧
    st'.failures = st.failures := by
  simp only [processEntry] at hp
  split at hp
  next hcond =>
    rw [Prod.mk.injEq, Prod.mk.injEq] at hp
    obtain ⟨hst, hevs, hstep⟩ := hp
    subst hst
    rcases hfind : Ledger.find st.progress m.key with _ | raw
    · exfalso
      simp [rawAt, hfind, initRecord, emptyRaw] at hcond
    · obtain ⟨nm?, u?, h5?, dl?⟩ := raw
      rcases nm? with _ | nm
      · exfalso; simp [rawAt, hfind, initRecord] at hcond
      rcases u? with _ | uu
      · exfalso; simp [rawAt, hfind, initRecord] at hcond
      rcases h5? with _ | h5v
      · exfalso; simp [rawAt, hfind, initRecord] at hcond
      rcases dl? with _ | dl
      · exfalso; simp [rawAt, hfind, initRecord] at hcond
      simp only [rawAt, hfind, initRecord, Option.getD_some, Option.isNone_some,
        Bool.or_false, Bool.or_self, Bool.not_false, Bool.true_and,
        Bool.and_eq_true] at hcond
      obtain ⟨⟨⟨hdl, hnm⟩, hh5⟩, hval⟩ := hcond
      refine ⟨?_, ?_, ?_, ?_, rfl⟩
      · simp only [entryReady, Ledger.find_store_self]
        simp [rawAt, hfind, initRecord, recordReady, Record.toRaw, hnm, hh5, hval, hdl]
      · intro k hk
        exact Ledger.find_store_ne _ _ _ _ hk
      · intro n hn
        rfl
      · intro raw' nmStr hf2 hname
        rw [Ledger.find_store_self] at hf2
        injection hf2 with hraw
        subst hraw
        simp only [rawAt, hfind, initRecord, Record.toRaw, Option.getD_some] at hname
        injection hname with hname
        simp [candNames, hfind, hname]
  next h1 =>
    split at hp
    next h2 =>
      have hseg : ∀ u, (initRecord (rawAt st.progress m).1).1.url = some u →
          u ≠ "" → lastSeg u ≠ "" := by
        intro u hu hne
        rcases hfind : Ledger.find st.progress m.key with _ | raw
        · exfalso
          simp [rawAt, hfind, initRecord, emptyRaw] at hu
        · apply hU raw hfind u _ hne
          rcases hru : raw.url? with _ | x
          · exfalso; simp [rawAt, hfind, initRecord, hru] at hu
          · simp only [rawAt, hfind, initRecord, hru, Option.getD_some] at hu
            rw [← hu]
      obtain ⟨u, h5v, hsg, hdisj, hfind', hne, hval, hfr, hfs, hfl⟩ :=
        resolvePart_clean env st m _ _ hF hR hseg st' evs o hp ho
      have hcand : lastSeg u ∈ candNames env st.progress m := by
        rcases hdisj with ⟨htr, hu⟩ | hrok
        · rcases hfind : Ledger.find st.progress m.key with _ | raw
          · exfalso
            simp [rawAt, hfind, initRecord, emptyRaw] at hu
          · have hraw : raw.url? = some (some u) := by
              rcases hru : raw.url? with _ | x
              · exfalso; simp [rawAt, hfind, initRecord, hru] at hu
              · simp only [rawAt, hfind, initRecord, hru, Option.getD_some] at hu
                rw [hu]
            have hut : u ≠ "" := by
              rw [hu] at htr
              simpa [optTruthy] using htr
            simp [candNames, hfind, hraw, hut]
        · simp [candNames, hrok]
      refine ⟨?_, hfr, ?_, ?_, hfl⟩
      · simp only [entryReady, hfind']
        simp [recordReady, optTruthy, hsg, hne, hval]
      · intro n hn
        apply hfs
        intro hEq
        subst hEq
        exact hn hcand
      · intro raw' nmStr hf2 hname
        rw [hfind'] at hf2
        injection hf2 with hraw
        subst hraw
        simp only at hname
        injection hname with hname
        injection hname with hname
        rw [← hname]
        exact hcand
    next h2 =>
      exfalso
      rw [Bool.not_eq_true] at h2
      simp only [Bool.or_eq_false_iff] at h2
      obtain ⟨⟨⟨⟨hfd, hnm⟩, hdl⟩, hurl2⟩, hmd⟩ := h2
      obtain ⟨⟨-, hfill⟩, hfc⟩ := hfd
      rw [Bool.not_eq_false'] at hnm hdl hurl2
      have hbne : ((initRecord (rawAt st.progress m).1).1.md5 != "") = true := by
        simp [bne, hmd]
      simp [hfill, hdl, hnm, hbne] at hfc

/-- Readiness survives any step that keeps the entry's record and the
content of its staged file. -/
theorem entryReady_stable (md5F : Bytes → String) (prog1 : Ledger) (fs1 : FS)
    (prog2 : Ledger) (fs2 : FS) (m : ModEntry)
    (h : entryReady md5F prog1 fs1 m = true)
    (hfind : Ledger.find prog2 m.key = Ledger.find prog1 m.key)
    (hfs : ∀ raw nm, Ledger.find prog1 m.key = some raw →
      raw.name? = some (some nm) → FS.read fs2 nm = FS.read fs1 nm) :
    entryReady md5F prog2 fs2 m = true := by
  simp only [entryReady] at h ⊢
  rw [hfind]
  rcases hf : Ledger.find prog1 m.key with _ | raw
  · rw [hf] at h; simp at h
  · rw [hf] at h
    obtain ⟨nm?, u?, h5?, dl?⟩ := raw
    rcases nm? with _ | nm
    · simp [recordReady] at h
    rcases u? with _ | uu
    · simp [recordReady] at h
    rcases h5? with _ | h5v
    · simp [recordReady] at h
    rcases dl? with _ | dl
    · simp [recordReady] at h
    rcases nm with _ | nmStr
    · simp [recordReady, optTruthy] at h
    · have hr := hfs _ nmStr hf rfl
      simp only [recordReady, Option.getD_some] at h ⊢
      rw [validateFile_congr md5F fs2 fs1 nmStr h5v hr]
      exact h

/-- Failure accounting for the `if file_url:` block. -/
theorem downloadPart_failures (env : Env) (af : Bool) (st : LoopState) (key : Key)
    (record : Record) (modified : Bool) (u : String) (evs0 : List Ev)
    (st' : LoopState) (evs : List Ev) (o : Outcome)
    (hp : downloadPart env af st key record modified u evs0 = (st', evs, EntryStep.cont o)) :
    (o = Outcome.acquired ∧ st'.failures = st.failures) ∨
    (o = Outcome.failedTransfer ∧ st'.failures = FailVal.ftrue) := by
  simp only [downloadPart] at hp
  repeat' split at hp
  all_goals
    rw [Prod.mk.injEq, Prod.mk.injEq] at hp
  all_goals
    obtain ⟨hst, hevs, hstep⟩ := hp
  all_goals
    first
    | exact EntryStep.noConfusion hstep
    | (injection hstep with h3
       subst h3
       subst hst
       first
       | exact Or.inl ⟨rfl, rfl⟩
       | exact Or.inr ⟨rfl, rfl⟩)

/-- Failure accounting for the resolution-plus-download block. -/
theorem resolvePart_failures (env : Env) (af : Bool) (st : LoopState) (m : ModEntry)
    (record : Record) (modified : Bool)
    (st' : LoopState) (evs : List Ev) (o : Outcome)
    (hp : resolvePart env af st m record modified = (st', evs, EntryStep.cont o)) :
    (o = Outcome.failedResolve → ∃ l, st.failures = FailVal.flist l ∧
      st'.failures = FailVal.flist (l ++ [m])) ∧
    (o = Outcome.failedTransfer → st'.failures = FailVal.ftrue) ∧
    (o = Outcome.noUrl → env.resolve m.projectID m.fileID = NetResult.ok "") ∧
    (o ≠ Outcome.failedResolve → o ≠ Outcome.failedTransfer →
      st'.failures = st.failures) := by
  by_cases hurl : optTruthy record.url = true
  · simp only [resolvePart, hurl, if_true] at hp
    rcases downloadPart_failures env af st m.key record modified _ []
        st' evs o hp with ⟨ho, hf⟩ | ⟨ho, hf⟩
    · subst ho
      exact ⟨fun h => Outcome.noConfusion h, fun h => Outcome.noConfusion h,
        fun h => Outcome.noConfusion h, fun _ _ => hf⟩
    · subst ho
      exact ⟨fun h => Outcome.noConfusion h, fun _ => hf,
        fun h => Outcome.noConfusion h, fun _ hne => absurd rfl hne⟩
  · rw [Bool.not_eq_true] at hurl
    simp only [resolvePart, hurl, Bool.false_eq_true, if_false] at hp
    rcases hr : env.resolve m.projectID m.fileID with t | _ | _
    · rw [hr] at hp
      by_cases ht : (t != "") = true
      · simp only [ht, if_true] at hp
        rcases downloadPart_failures env af st m.key record modified t _
            st' evs o hp with ⟨ho, hf⟩ | ⟨ho, hf⟩
        · subst ho
          exact ⟨fun h => Outcome.noConfusion h, fun h => Outcome.noConfusion h,
            fun h => Outcome.noConfusion h, fun _ _ => hf⟩
        · subst ho
          exact ⟨fun h => Outcome.noConfusion h, fun _ => hf,
            fun h => Outcome.noConfusion h, fun _ hne => absurd rfl hne⟩
      · rw [Bool.not_eq_true] at ht
        simp only [ht, Bool.false_eq_true, if_false] at hp
        rw [Prod.mk.injEq, Prod.mk.injEq] at hp
        obtain ⟨hst, hevs, hstep⟩ := hp
        injection hstep with h3
        subst h3
        subst hst
        have ht0 : t = "" := by simpa [bne_eq_false_iff_eq] using ht
        exact ⟨fun h => Outcome.noConfusion h, fun h => Outcome.noConfusion h,
          fun _ => by rw [ht0], fun _ _ => rfl⟩
    · rw [hr] at hp
      rcases hsf : st.failures with l | _ | _
      · rw [hsf] at hp
        simp only [FailVal.append] at hp
        rw [Prod.mk.injEq, Prod.mk.injEq] at hp
        obtain ⟨hst, hevs, hstep⟩ := hp
        injection hstep with h3
        subst h3
        subst hst
        exact ⟨fun _ => ⟨l, rfl, rfl⟩, fun h => Outcome.noConfusion h,
          fun h => Outcome.noConfusion h, fun hne _ => absurd rfl hne⟩
      · rw [hsf] at hp
        simp only [FailVal.append] at hp
        rw [Prod.mk.injEq, Prod.mk.injEq] at hp
        exact EntryStep.noConfusion hp.2.2
      · rw [hsf] at hp
        simp only [FailVal.append] at hp
        rw [Prod.mk.injEq, Prod.mk.injEq] at hp
        exact EntryStep.noConfusion hp.2.2
    · rw [hr] at hp
      rw [Prod.mk.injEq, Prod.mk.injEq] at hp
      exact EntryStep.noConfusion hp.2.2

/-- Failure accounting for one loop iteration. -/
theorem processEntry_failures (env : Env) (af : Bool) (st : LoopState) (m : ModEntry)
    (st' : LoopState) (evs : List Ev) (o : Outcome)
    (hp : processEntry env af st m = (st', evs, EntryStep.cont o)) :
    (o = Outcome.failedResolve → ∃ l, st.failures = FailVal.flist l ∧
      st'.failures = FailVal.flist (l ++ [m])) ∧
    (o = Outcome.failedTransfer → st'.failures = FailVal.ftrue) ∧
    (o = Outcome.noUrl → env.resolve m.projectID m.fileID = NetResult.ok "") ∧
    (o ≠ Outcome.failedResolve → o ≠ Outcome.failedTransfer →
      st'.failures = st.failures) := by
  simp only [processEntry] at hp
  split at hp
  next hcond =>
    rw [Prod.mk.injEq, Prod.mk.injEq] at hp
    obtain ⟨hst, hevs, hstep⟩ := hp
    injection hstep with h3
    subst h3
    subst hst
    exact ⟨fun h => Outcome.noConfusion h, fun h => Outcome.noConfusion h,
      fun h => Outcome.noConfusion h, fun _ _ => rfl⟩
  next h1 =>
    split at hp
    next h2 => exact resolvePart_failures env af st m _ _ st' evs o hp
    next h2 =>
      rw [Prod.mk.injEq, Prod.mk.injEq] at hp
      obtain ⟨hst, hevs, hstep⟩ := hp
      injection hstep with h3
      subst h3
      subst hst
      exact ⟨fun h => Outcome.noConfusion h, fun h => Outcome.noConfusion h,
        fun h => Outcome.noConfusion h, fun _ _ => rfl⟩

/-- A non-empty failure value never becomes the empty list again during
a completed pass. -/
theorem runPassAux_failures_ne (env : Env) (af : Bool) (ms : List ModEntry)
    (st : LoopState) (h : st.failures ≠ FailVal.flist [])
    (hend : (runPassAux env af ms st).ending = PassEnding.completed) :
    (runPassAux env af ms st).st.failures ≠ FailVal.flist [] := by
  induction ms generalizing st with
  | nil => simpa [runPassAux] using h
  | cons m ms ih =>
    rcases hp : processEntry env af st m with ⟨st1, evs, step⟩
    cases step with
    | cont o =>
      simp only [runPassAux, hp] at hend ⊢
      apply ih st1 _ hend
      have hof := processEntry_failures env af st m st1 evs o hp
      by_cases ho1 : o = Outcome.failedResolve
      · obtain ⟨l, _, hl2⟩ := hof.1 ho1
        rw [hl2]; simp
      · by_cases ho2 : o = Outcome.failedTransfer
        · rw [hof.2.1 ho2]; simp
        · rw [hof.2.2.2 ho1 ho2]; exact h
    | interrupted =>
      simp only [runPassAux, hp] at hend
      exact absurd hend (by simp)
    | pyError =>
      simp only [runPassAux, hp] at hend
      exact absurd hend (by simp)

/-- Main invariant of a clean pass: with an honest transfer layer,
well-segmented URLs and separated entries, a completed pass that ends
with an empty failure list leaves every processed entry ready, and
touches no foreign key and no foreign filename. -/
theorem runPassAux_clean (env : Env) (hF : honestFetch env) (hR : resolveSegOK env) :
    ∀ (ms : List ModEntry) (st : LoopState),
    (∀ m ∈ ms, ∀ raw, Ledger.find st.progress m.key = some raw → urlSegOK raw) →
    entriesSeparated env st.progress ms →
    st.failures = FailVal.flist [] →
    (runPassAux env false ms st).ending = PassEnding.completed →
    (runPassAux env false ms st).st.failures = FailVal.flist [] →
    (∀ m ∈ ms, entryReady env.md5 (runPassAux env false ms st).st.progress
      (runPassAux env false ms st).st.fs m = true) ∧
    (∀ k, (∀ m ∈ ms, k ≠ m.key) →
      Ledger.find (runPassAux env false ms st).st.progress k =
        Ledger.find st.progress k) ∧
    (∀ n, (∀ m ∈ ms, n ∉ candNames env st.progress m) →
      FS.read (runPassAux env false ms st).st.fs n = FS.read st.fs n) := by
  intro ms
  induction ms with
  | nil =>
    intro st _ _ _ _ _
    exact ⟨by simp, fun k _ => by simp [runPassAux], fun n _ => by simp [runPassAux]⟩
  | cons m ms ih =>
    intro st hU hsep hst0 hend hfin
    rcases hp : processEntry env false st m with ⟨st1, evs1, step⟩
    cases step with
    | interrupted =>
      simp only [runPassAux, hp] at hend
      exact absurd hend (by simp)
    | pyError =>
      simp only [runPassAux, hp] at hend
      exact absurd hend (by simp)
    | cont o =>
      simp only [runPassAux, hp] at hend hfin ⊢
      have hof := processEntry_failures env false st m st1 evs1 o hp
      have ho : o ≠ Outcome.failedResolve ∧ o ≠ Outcome.failedTransfer ∧
          o ≠ Outcome.noUrl := by
        refine ⟨?_, ?_, ?_⟩
        · intro hoe
          obtain ⟨l, _, hl2⟩ := hof.1 hoe
          exact runPassAux_failures_ne env false ms st1 (by rw [hl2]; simp) hend hfin
        · intro hoe
          exact runPassAux_failures_ne env false ms st1
            (by rw [hof.2.1 hoe]; simp) hend hfin
        · intro hoe
          exact hR m.projectID m.fileID "" (hof.2.2.1 hoe) lastSeg_empty
      obtain ⟨hready1, hfr1, hfs1, hname1, hfail1⟩ :=
        processEntry_clean env st m hF hR (hU m (List.mem_cons_self m ms))
          st1 evs1 o hp ho
      have hst1f : st1.failures = FailVal.flist [] := by rw [hfail1, hst0]
      obtain ⟨hhead, htail⟩ := List.pairwise_cons.mp hsep
      have hUkey : ∀ m' ∈ ms,
          Ledger.find st1.progress m'.key = Ledger.find st.progress m'.key := by
        intro m' hm'
        exact hfr1 m'.key (Ne.symm (hhead m' hm').1)
      have hU1 : ∀ m' ∈ ms, ∀ raw,
          Ledger.find st1.progress m'.key = some raw → urlSegOK raw := by
        intro m' hm' raw hr'
        refine hU m' (List.mem_cons_of_mem _ hm') raw ?_
        rw [← hUkey m' hm']
        exact hr'
      have hcand1 : ∀ m' ∈ ms,
          candNames env st1.progress m' = candNames env st.progress m' := by
        intro m' hm'
        unfold candNames
        rw [hUkey m' hm']
      have hsep1 : entriesSeparated env st1.progress ms := by
        refine List.Pairwise.imp_of_mem ?_ htail
        intro a b ha hb hrel
        refine ⟨hrel.1, ?_⟩
        intro n hna
        rw [hcand1 a ha] at hna
        rw [hcand1 b hb]
        exact hrel.2 n hna
      obtain ⟨ihready, ihfr, ihfs⟩ := ih st1 hU1 hsep1 hst1f hend hfin
      refine ⟨?_, ?_, ?_⟩
      · intro m' hm'
        rcases List.mem_cons.mp hm' with rfl | hm'
        · have hkeys : ∀ m2 ∈ ms, m'.key ≠ m2.key := fun m2 hm2 => (hhead m2 hm2).1
          refine entryReady_stable env.md5 st1.progress st1.fs _ _ m' hready1
            (ihfr m'.key hkeys) ?_
          intro raw nm hfindr hnm
          have hnmem : nm ∈ candNames env st.progress m' := hname1 raw nm hfindr hnm
          apply ihfs
          intro m2 hm2
          rw [hcand1 m2 hm2]
          exact (hhead m2 hm2).2 nm hnmem
        · exact ihready m' hm'
      · intro k hk
        rw [ihfr k (fun m2 hm2 => hk m2 (List.mem_cons_of_mem _ hm2))]
        exact hfr1 k (hk m (List.mem_cons_self m ms))
      · intro n hn
        have h1 : FS.read (runPassAux env false ms st1).st.fs n = FS.read st1.fs n := by
          apply ihfs
          intro m2 hm2
          rw [hcand1 m2 hm2]
          exact hn m2 (List.mem_cons_of_mem _ hm2)
        rw [h1]
        exact hfs1 n (hn m (List.mem_cons_self m ms))

end CleanRunLemmas

section Claims

/-- Claim C1 (code bug): the claim says a recoverable fetch failure of
one component is recorded against that component only in the run's
ordered failure list, so that with one failing entry out of two the
list holds exactly that reference.  Evaluating the engine at the
failing input: entry (100,200) is acquired and entry (101,201) fails
its transfer, the run continues, but line 345 (`mod_failures = True`)
replaces the failure list by the boolean `True`, so the final
`mod_failures` value is not a list at all and the failing reference is
lost. -/
theorem C1_transfer_failure_clobbers_list :
    outC1.lastOutcomes = [Outcome.acquired, Outcome.failedTransfer] ∧
    outC1.st.failures = FailVal.ftrue ∧
    (∀ l : List ModEntry, outC1.st.failures ≠ FailVal.flist l) := by
  have h2 : outC1.st.failures = FailVal.ftrue := by decide
  refine ⟨by decide, h2, ?_⟩
  intro l h
  rw [h2] at h
  exact FailVal.noConfusion h

/-- Counterexample to claim C2 as stated: the ledger file is not
written exactly once per invocation of `run` — in a run whose first
pass fails, is retried, and fails again before the operator aborts,
the `finally` block runs per pass and the ledger is written twice. -/
theorem C2_counterexample_double_write :
    outC2.writes.length = 2 ∧ outC2.exit = ExitKind.userAbort := ⟨by decide, by decide⟩

/-- Counterexample to claim C3 as stated: a run can complete cleanly
(entry acquired, no failures) while the transfer's entity tag does not
match the digest of the delivered bytes; the second run then fails the
fast-skip validation and performs a network transfer again instead of
resolving to Skipped. -/
theorem C3_counterexample_refetch_after_clean_run :
    outC3a.exit = ExitKind.cleanFinish ∧
    outC3a.st.failures = FailVal.flist [] ∧
    Ev.fetchCall "host/f.jar" ∈ outC3b.events ∧
    outC3b.lastOutcomes = [Outcome.acquired] := by
  refine ⟨by decide, by decide, by decide, by decide⟩

/-- Claim C4 (code bug): the invariant says `completed == true` implies
the stored file validates against `contentDigest` unless the file was
deleted or altered externally.  Evaluating the engine at the failing
input: the run finishes cleanly, the record has `downloaded = true`
with digest `"BAD"`, the staged file is present with the exact bytes
the transfer delivered, and validation fails — `download_file` checks
the fresh file (line 94) and prints `Failed.`, but its result is
ignored and line 346 still marks the record downloaded. -/
theorem C4_completed_record_fails_validation :
    outC4.exit = ExitKind.cleanFinish ∧
    Ledger.find outC4.st.progress ("100", "200") =
      some ⟨some (some "f.jar"), some (some "host/f.jar"), some "BAD", some true⟩ ∧
    FS.read outC4.st.fs "f.jar" = some "X" ∧
    validateFile md5H outC4.st.fs "f.jar" "BAD" = false :=
  ⟨by decide, by decide, by decide, by decide⟩

/-- Claim C5 (code bug): the claim says the ledger persisted after a
cancellation reflects entries 1..k exactly.  Evaluating the engine at
the failing input: entry 1's failed re-download resets its
`downloaded` flag in memory without marking the ledger dirty
(line 346 has no `progress_modified = True` in the failure case), so
when entry 2's transfer is interrupted the ledger file is never
rewritten and the persisted state still shows entry 1 as completed. -/
theorem C5_interrupt_persists_stale_ledger :
    outC5.exit = ExitKind.interrupted ∧
    outC5.writes = [] ∧
    outC5.st.modified = false ∧
    Ledger.find outC5.st.progress ("100", "200") =
      some ⟨some (some "a.jar"), some (some "host/a.jar"), some "ha", some false⟩ ∧
    Ledger.find progC5 ("100", "200") =
      some ⟨some (some "a.jar"), some (some "host/a.jar"), some "ha", some true⟩ ∧
    outC5.lastOutcomes = [Outcome.failedTransfer] :=
  ⟨by decide, by decide, by decide, by decide, by decide, by decide⟩

/-- Claim C2 (amended): within one pass of the retry loop the ledger is
never written during the iteration (no write event among the entry
events), and the `finally` block after the iteration writes it exactly
once if the dirty flag is set and not at all otherwise — the flag
persists across retry passes, so a retried run writes once per pass;
in particular a pass in which every entry fast-skips from a clean flag
leaves the ledger file unwritten. -/
theorem C2_write_once_per_pass_when_dirty (env : Env) (argsForce : Bool)
    (manifest : List ModEntry) (answers : Nat → Bool) (pIdx : Nat) (st : LoopState) :
    Ev.writeLedger ∉ (runPassAux env argsForce manifest st).entryEvents ∧
    ((finishPass answers pIdx (runPassAux env argsForce manifest st).st
        (runPassAux env argsForce manifest st).ending).events =
      (if (runPassAux env argsForce manifest st).st.modified
       then [Ev.writeLedger] else [])) ∧
    ((finishPass answers pIdx (runPassAux env argsForce manifest st).st
        (runPassAux env argsForce manifest st).ending).writes =
      (if (runPassAux env argsForce manifest st).st.modified
       then [(runPassAux env argsForce manifest st).st.progress] else [])) ∧
    (st.modified = false →
      (∀ m ∈ manifest, entryReady env.md5 st.progress st.fs m = true) →
      (finishPass answers pIdx (runPassAux env false manifest st).st
        (runPassAux env false manifest st).ending).writes = []) := by
  refine ⟨runPassAux_no_write env argsForce manifest st,
    (finishPass_write_gate answers pIdx _ _).1,
    (finishPass_write_gate answers pIdx _ _).2, ?_⟩
  intro hmod hready
  rw [runPassAux_ready env manifest st hready]
  rw [(finishPass_write_gate answers pIdx st PassEnding.completed).2, hmod]
  simp

/-- Witness for C2 (amended) at a one-entry manifest whose record is
ready: the pass has no write events and the `finally` block writes
nothing. -/
theorem C2_write_once_per_pass_witness :
    Ev.writeLedger ∉
      (runPassAux envC2w false [⟨"100", "200"⟩] ⟨progC2w, fsC2w, false, .flist []⟩).entryEvents ∧
    (finishPass (fun _ => false) 0
      (runPassAux envC2w false [⟨"100", "200"⟩] ⟨progC2w, fsC2w, false, .flist []⟩).st
      (runPassAux envC2w false [⟨"100", "200"⟩] ⟨progC2w, fsC2w, false, .flist []⟩).ending).writes
      = [] :=
  ⟨(C2_write_once_per_pass_when_dirty envC2w false [⟨"100", "200"⟩] (fun _ => false) 0
      ⟨progC2w, fsC2w, false, .flist []⟩).1,
   (C2_write_once_per_pass_when_dirty envC2w false [⟨"100", "200"⟩] (fun _ => false) 0
      ⟨progC2w, fsC2w, false, .flist []⟩).2.2.2 rfl (by decide)⟩

/-- Claim C3 (amended): if the first pass of a run with `force = false`
completes cleanly (loop exhausted, failure list empty), and moreover
every transfer's entity tag equals the digest of its bytes, every
resolution and every stored URL has a non-empty final path segment,
and distinct manifest entries have distinct keys and disjoint
candidate filenames, then a second invocation on the resulting state
performs zero network requests (its event list is empty), every entry
resolves to `Skipped`, and it finishes cleanly with nothing changed. -/
theorem C3_second_run_all_skipped (env : Env) (manifest : List ModEntry)
    (prog0 : Ledger) (fs0 : FS)
    (hF : honestFetch env) (hR : resolveSegOK env)
    (hU : ∀ m ∈ manifest, ∀ raw, Ledger.find prog0 m.key = some raw → urlSegOK raw)
    (hsep : entriesSeparated env prog0 manifest)
    (hend : (runPassAux env false manifest ⟨prog0, fs0, false, .flist []⟩).ending =
      PassEnding.completed)
    (hfail : (runPassAux env false manifest ⟨prog0, fs0, false, .flist []⟩).st.failures =
      FailVal.flist [])
    (answers2 : Nat → Bool) (fuel2 pIdx2 : Nat) :
    runLoop env false manifest answers2 (fuel2 + 1) pIdx2
      ⟨(runPassAux env false manifest ⟨prog0, fs0, false, .flist []⟩).st.progress,
       (runPassAux env false manifest ⟨prog0, fs0, false, .flist []⟩).st.fs,
       false, FailVal.flist []⟩ =
      ⟨⟨(runPassAux env false manifest ⟨prog0, fs0, false, .flist []⟩).st.progress,
        (runPassAux env false manifest ⟨prog0, fs0, false, .flist []⟩).st.fs,
        false, FailVal.flist []⟩,
       [], [], manifest.map (fun _ => Outcome.skipped), ExitKind.cleanFinish⟩ := by
  have hready := (runPassAux_clean env hF hR manifest ⟨prog0, fs0, false, .flist []⟩
    hU hsep rfl hend hfail).1
  have hpass := runPassAux_ready env manifest
    ⟨(runPassAux env false manifest ⟨prog0, fs0, false, .flist []⟩).st.progress,
     (runPassAux env false manifest ⟨prog0, fs0, false, .flist []⟩).st.fs,
     false, FailVal.flist []⟩ hready
  have hfin : finishPass answers2 pIdx2
      ⟨(runPassAux env false manifest ⟨prog0, fs0, false, .flist []⟩).st.progress,
       (runPassAux env false manifest ⟨prog0, fs0, false, .flist []⟩).st.fs,
       false, FailVal.flist []⟩ PassEnding.completed =
      ⟨⟨(runPassAux env false manifest ⟨prog0, fs0, false, .flist []⟩).st.progress,
        (runPassAux env false manifest ⟨prog0, fs0, false, .flist []⟩).st.fs,
        false, FailVal.flist []⟩, [], [], Decision.finished⟩ := by
    simp [finishPass, FailVal.truthy]
  simp only [runLoop, hpass, hfin]
  simp

/-- Witness for C3 (amended): one entry, empty ledger, honest server;
the first pass acquires it cleanly and the second run is a no-op with
the entry `Skipped`. -/
theorem C3_second_run_all_skipped_witness :
    runLoop envC3w false [⟨"100", "200"⟩] (fun _ => false) 1 0
      ⟨(runPassAux envC3w false [⟨"100", "200"⟩] ⟨[], [], false, .flist []⟩).st.progress,
       (runPassAux envC3w false [⟨"100", "200"⟩] ⟨[], [], false, .flist []⟩).st.fs,
       false, FailVal.flist []⟩ =
      ⟨⟨(runPassAux envC3w false [⟨"100", "200"⟩] ⟨[], [], false, .flist []⟩).st.progress,
        (runPassAux envC3w false [⟨"100", "200"⟩] ⟨[], [], false, .flist []⟩).st.fs,
        false, FailVal.flist []⟩,
       [], [], [Outcome.skipped], ExitKind.cleanFinish⟩ := by
  have h := C3_second_run_all_skipped envC3w [⟨"100", "200"⟩] [] []
    (by
      intro u r hr
      injection hr with hr
      subst hr
      exact ⟨by decide, by decide⟩)
    (by
      intro p f t ht
      injection ht with ht
      subst ht
      decide)
    (by
      intro m hm raw hfind
      simp [Ledger.find] at hfind)
    (by simp [entriesSeparated])
    (by decide) (by decide) (fun _ => false) 0 0
  simpa using h

/-- Claim C6: ledger load returns an empty ledger when the backing file
is absent or empty; when the file is non-empty but malformed, load
fails with a propagated error and no per-component work begins. -/
theorem C6_ledger_load (parse : String → Option Ledger) (file : Option String)
    (env : Env) (argsForce : Bool) (manifest : List ModEntry)
    (answers : Nat → Bool) (fuel : Nat) (fs0 : FS) :
    ((file = none ∨ file = some "") → loadProgress parse file = Except.ok []) ∧
    (∀ s, file = some s → s ≠ "" → parse s = none →
      loadProgress parse file = Except.error () ∧
      modsPhase parse file env argsForce manifest answers fuel fs0 =
        ([], Except.error ())) := by
  constructor
  · rintro (rfl | rfl)
    · rfl
    · simp [loadProgress]
  · rintro s rfl hs hp
    have h1 : loadProgress parse (some s) = Except.error () := by
      simp [loadProgress, hs, hp]
    exact ⟨h1, by simp [modsPhase, h1]⟩

/-- Witness for C6: with a parser that rejects everything, an absent
file loads as the empty ledger, and the non-empty content `"garbage"`
makes the load and the whole mods phase fail before any work. -/
theorem C6_ledger_load_witness :
    loadProgress (fun _ => none) none = Except.ok [] ∧
    loadProgress (fun _ => none) (some "garbage") = Except.error () ∧
    modsPhase (fun _ => none) (some "garbage") envC6w false [] (fun _ => false) 1 [] =
      ([], Except.error ()) :=
  ⟨(C6_ledger_load (fun _ => none) none envC6w false [] (fun _ => false) 1 []).1
      (Or.inl rfl),
   ((C6_ledger_load (fun _ => none) (some "garbage") envC6w false [] (fun _ => false)
      1 []).2 "garbage" rfl (by decide) rfl).1,
   ((C6_ledger_load (fun _ => none) (some "garbage") envC6w false [] (fun _ => false)
      1 []).2 "garbage" rfl (by decide) rfl).2⟩

/-- Claim C7: with `force` false, the destination file (named by the
URL's final path segment) present, and the expected digest absent or
validated, `download_file` performs no network call and returns the
existing path with no fresh bytes fetched (`resp = none`). -/
theorem C7_download_already_satisfied (env : Env) (url : String)
    (md5 : Option String) (fs : FS) (b : Bytes)
    (hex : FS.read fs (lastSeg url) = some b)
    (hval : md5 = none ∨ ∃ m, md5 = some m ∧
      validateFile env.md5 fs (lastSeg url) m = true) :
    downloadFile env url false md5 fs = ⟨none, some (lastSeg url), fs, [], false⟩ := by
  have hsat : alreadySatisfied env.md5 url false md5 fs = true := by
    unfold alreadySatisfied
    rcases hval with rfl | ⟨m, rfl, hv⟩
    · simp [hex]
    · simp [hex, hv]
  unfold downloadFile
  simp [hsat]

/-- Witness for C7: the file `f.jar` is already staged and no digest is
expected, so the download is skipped with no events. -/
theorem C7_download_already_satisfied_witness :
    FS.read [("f.jar", "F")] (lastSeg "host/f.jar") = some "F" ∧
    downloadFile envC7w "host/f.jar" false none [("f.jar", "F")] =
      ⟨none, some (lastSeg "host/f.jar"), [("f.jar", "F")], [], false⟩ :=
  ⟨by decide,
   C7_download_already_satisfied envC7w "host/f.jar" none [("f.jar", "F")] "F"
     (by decide) (Or.inl rfl)⟩

/-- Claim C9: when the fetch inside `download_file` fails, the call
returns the failure pair `(None, None)` and nothing is written to the
destination; more generally the destination directory changes only
when the fetch succeeded, and then only at the destination filename,
which afterwards holds exactly the fetched bytes. -/
theorem C9_fetch_failure_leaves_fs_unchanged (env : Env) (url : String)
    (force : Bool) (md5 : Option String) (fs : FS) :
    (env.fetch url = NetResult.fail →
      alreadySatisfied env.md5 url force md5 fs = false →
      downloadFile env url force md5 fs = ⟨none, none, fs, [Ev.fetchCall url], false⟩) ∧
    (∀ n, FS.read (downloadFile env url force md5 fs).fs n ≠ FS.read fs n →
      ∃ r, env.fetch url = NetResult.ok r ∧ n = lastSeg url ∧
        FS.read (downloadFile env url force md5 fs).fs n = some r.content) := by
  constructor
  · intro hf hs
    simp [downloadFile, hs, hf]
  · intro n hne
    by_cases hs : alreadySatisfied env.md5 url force md5 fs = true
    · exact absurd (by simp [downloadFile, hs]) hne
    · rw [Bool.not_eq_true] at hs
      rcases hfetch : env.fetch url with r | _ | _
      · by_cases hn : n = lastSeg url
        · subst hn
          refine ⟨r, rfl, rfl, ?_⟩
          simp [downloadFile, hs, hfetch, FS.read_write_self]
        · exact absurd (by
            simp [downloadFile, hs, hfetch,
              FS.read_write_ne fs (lastSeg url) n r.content hn]) hne
      · exact absurd (by simp [downloadFile, hs, hfetch]) hne
      · exact absurd (by simp [downloadFile, hs, hfetch]) hne

/-- Witness for C9: a failing fetch of `host/f.jar` into an empty
staging directory returns the failure pair and leaves it empty. -/
theorem C9_fetch_failure_witness :
    downloadFile envC9w "host/f.jar" false none [] =
      ⟨none, none, [], [Ev.fetchCall "host/f.jar"], false⟩ :=
  (C9_fetch_failure_leaves_fs_unchanged envC9w "host/f.jar" false none []).1
    rfl (by decide)

/-- Claim C8: the planner contacts the catalog only when the record's
URL is empty or absent after default-filling; when an entry resolves a
URL and then attempts the transfer, the (non-empty) URL is stored in
the record and the ledger is marked dirty — the store at lines 326-328
precedes the `download_file` call, and the conclusion holds for every
transfer result including failure and interrupt — so a later
processing of the same entry, finding a truthy stored URL, never
issues a resolution request. -/
theorem C8_resolve_once_and_url_persisted (env : Env) (argsForce : Bool)
    (st : LoopState) (m : ModEntry) (st' : LoopState) (evs : List Ev)
    (step : EntryStep)
    (hp : processEntry env argsForce st m = (st', evs, step)) :
    (∀ p f, Ev.resolveCall p f ∈ evs →
      optTruthy (initRecord (rawAt st.progress m).1).1.url = false) ∧
    (∀ p f u, Ev.resolveCall p f ∈ evs → Ev.fetchCall u ∈ evs →
      u ≠ "" ∧
      (∃ raw, Ledger.find st'.progress m.key = some raw ∧
        raw.url? = some (some u)) ∧
      st'.modified = true) ∧
    (∀ st2 : LoopState,
      optTruthy (initRecord (rawAt st2.progress m).1).1.url = true →
      ∀ p f, Ev.resolveCall p f ∉ (processEntry env argsForce st2 m).2.1) := by
  have hevs : evs = (processEntry env argsForce st m).2.1 := by rw [hp]
  have hst : st' = (processEntry env argsForce st m).1 := by rw [hp]
  subst hevs hst
  refine ⟨?_, ?_, ?_⟩
  · intro p f h
    exact processEntry_resolve_gated env argsForce st m p f h
  · intro p f u hres hfet
    exact processEntry_fetch_after_resolve env argsForce st m u p f
      (processEntry_resolve_gated env argsForce st m p f hres) hres hfet
  · intro st2 h2 p f hmem
    have hg := processEntry_resolve_gated env argsForce st2 m p f hmem
    rw [hg] at h2
    exact Bool.noConfusion h2

/-- Witness for C8: a fresh entry resolves `host/f.jar`, the transfer
fails, and the resolved URL is nevertheless stored with the ledger
dirty. -/
theorem C8_resolve_once_witness :
    Ev.resolveCall "100" "200" ∈
      (processEntry envC8w false ⟨[], [], false, .flist []⟩ ⟨"100", "200"⟩).2.1 ∧
    ("host/f.jar" ≠ "" ∧
      (∃ raw, Ledger.find
          (processEntry envC8w false ⟨[], [], false, .flist []⟩ ⟨"100", "200"⟩).1.progress
          (ModEntry.key ⟨"100", "200"⟩) = some raw ∧
        raw.url? = some (some "host/f.jar")) ∧
      (processEntry envC8w false ⟨[], [], false, .flist []⟩ ⟨"100", "200"⟩).1.modified = true) := by
  have h := C8_resolve_once_and_url_persisted envC8w false ⟨[], [], false, .flist []⟩
    ⟨"100", "200"⟩ _ _ _ rfl
  exact ⟨by decide, h.2.1 "100" "200" "host/f.jar" (by decide) (by decide)⟩

/-- Claim C10: before any of the four record fields is read, each
missing key is initialized to its default (`None`, `None`, `""`,
`False`) — after `initRecord` every field access is total by
construction — and if any key was missing the ledger is marked dirty
and the entry cannot take either skip path. -/
theorem C10_defaults_and_forced_download (env : Env) (argsForce : Bool)
    (st : LoopState) (m : ModEntry) (st' : LoopState) (evs : List Ev)
    (step : EntryStep)
    (hp : processEntry env argsForce st m = (st', evs, step)) :
    ((rawAt st.progress m).1.name? = none →
      (initRecord (rawAt st.progress m).1).1.name = none) ∧
    ((rawAt st.progress m).1.url? = none →
      (initRecord (rawAt st.progress m).1).1.url = none) ∧
    ((rawAt st.progress m).1.md5? = none →
      (initRecord (rawAt st.progress m).1).1.md5 = "") ∧
    ((rawAt st.progress m).1.downloaded? = none →
      (initRecord (rawAt st.progress m).1).1.downloaded = false) ∧
    ((initRecord (rawAt st.progress m).1).2 = true ↔
      ((rawAt st.progress m).1.name? = none ∨ (rawAt st.progress m).1.url? = none ∨
       (rawAt st.progress m).1.md5? = none ∨
       (rawAt st.progress m).1.downloaded? = none)) ∧
    ((initRecord (rawAt st.progress m).1).2 = true →
      st'.modified = true ∧ step ≠ EntryStep.cont Outcome.skipped ∧
      step ≠ EntryStep.cont Outcome.skippedQuiet) := by
  have hst : st' = (processEntry env argsForce st m).1 := by rw [hp]
  have hstep : step = (processEntry env argsForce st m).2.2 := by rw [hp]
  subst hst hstep
  refine ⟨?_, ?_, ?_, ?_, ?_, ?_⟩
  · intro h; simp [initRecord, h]
  · intro h; simp [initRecord, h]
  · intro h; simp [initRecord, h]
  · intro h; simp [initRecord, h]
  · simp [initRecord, Option.isNone_iff_eq_none, Bool.or_eq_true, or_assoc]
  · intro h
    exact processEntry_filled env argsForce st m h

/-- Witness for C10: a first-encounter entry (no record at all) gets
the full default record, the ledger is dirty and the entry is not
skipped. -/
theorem C10_defaults_witness :
    (initRecord (rawAt ([] : Ledger) ⟨"100", "200"⟩).1).1 =
      ⟨none, none, "", false⟩ ∧
    (processEntry envC10w false ⟨[], [], false, .flist []⟩ ⟨"100", "200"⟩).1.modified = true ∧
    (processEntry envC10w false ⟨[], [], false, .flist []⟩ ⟨"100", "200"⟩).2.2 ≠
      EntryStep.cont Outcome.skipped := by
  have h := C10_defaults_and_forced_download envC10w false ⟨[], [], false, .flist []⟩
    ⟨"100", "200"⟩ _ _ _ rfl
  have h6 := h.2.2.2.2.2 (by decide)
  exact ⟨by decide, h6.1, h6.2.1⟩

end Claims

end ModpackDownloader
